import Mathlib

set_option maxRecDepth 10000

/-!
A shallow embedding of the `rust-fix` crate (FIX protocol message builder and
parser).  Bytes are `Fin 256`, byte buffers are `List Byte`, Rust `String`s are
modelled by their UTF-8 byte content.  Each definition mirrors one item of the
Rust source (`src/utils.rs`, `src/fix_message_builder.rs`, `src/errors.rs`);
`Option`-returning and panicking paths are made explicit.
-/

/-- A machine byte, as in Rust `u8`. -/
abbrev Byte := Fin 256

/-- The bytes of a Rust string literal (`&str` / `String::as_bytes`); the
strings appearing in this development are ASCII, so each char is one byte. -/
def strToBytes (s : String) : List Byte :=
  s.data.map (fun c => ⟨c.toNat % 256, Nat.mod_lt _ (by omega)⟩)

/-- `pub const FIX_EQUALS: u8 = 0x3d;` (src/utils.rs). -/
def FIX_EQUALS : Byte := 0x3d

/-- `pub const FIX_DELIMETR: u8 = 0x1;` (src/utils.rs). -/
def FIX_DELIMETR : Byte := 0x01

/-- Decimal digits (most significant first) of `n`, with explicit fuel so the
definition is structurally recursive; `natDecDigits` supplies enough fuel. -/
def natDecDigitsAux : Nat → Nat → List Nat
  | 0, _ => []
  | fuel + 1, n => if n < 10 then [n] else natDecDigitsAux fuel (n / 10) ++ [n % 10]

/-- Decimal digits of `n`, most significant first (`0` renders as `[0]`). -/
def natDecDigits (n : Nat) : List Nat := natDecDigitsAux (n + 1) n

/-- ASCII byte of a decimal digit. -/
def digitByte (d : Nat) : Byte := ⟨(0x30 + d) % 256, Nat.mod_lt _ (by omega)⟩

/-- The ASCII bytes of `n.to_string()` for an unsigned integer (decimal, no
padding), as Rust's `Display` for `u8`/`usize` renders it. -/
def natDecBytes (n : Nat) : List Byte := (natDecDigits n).map digitByte

/-- The ASCII bytes of `key.to_string()` for `key: i32`. -/
def intDecBytes (k : Int) : List Byte :=
  match k with
  | Int.ofNat n => natDecBytes n
  | Int.negSucc n => (⟨0x2d, by omega⟩ : Byte) :: natDecBytes (n + 1)

/-- `pub fn calculate_check_sum(body: &[u8]) -> String` (src/utils.rs):
a `u8` sum accumulated with `wrapping_add`, then `format!("{:0>3}", ...)`,
i.e. the decimal rendering left-padded with `'0'` to width 3.  The returned
Rust `String` is modelled by its ASCII bytes. -/
def utils.calculate_check_sum (body : List Byte) : List Byte :=
  let sum : Byte := body.foldl (fun s b => s + b) 0
  let ds := natDecBytes sum.val
  List.replicate (3 - ds.length) (digitByte 0) ++ ds

/-- `pub fn compile_fix_chunk(key: &[u8], value: &[u8]) -> Vec<u8>`
(src/utils.rs): `key ++ "=" ++ value ++ <0x01>`. -/
def utils.compile_fix_chunk (key value : List Byte) : List Byte :=
  key ++ [FIX_EQUALS] ++ value ++ [FIX_DELIMETR]

/-- The scan state of `split_fix_to_tags` (src/utils.rs): the accumulated
result map and the two accumulation buffers plus the `is_equals_raised` flag.
The Rust `HashMap<Vec<u8>, Vec<u8>>` is modelled as an association list whose
keys appear in first-insertion order; `insert` overwrites the value stored at
an existing key, exactly as `HashMap::insert` does. -/
structure SplitState where
  result : List (List Byte × List Byte)
  keyBuffer : List Byte
  valueBuffer : List Byte
  isEqualsRaised : Bool

/-- `HashMap::insert` on the association-list model: replace the value at an
existing key, otherwise add the binding. -/
def mapInsert (m : List (List Byte × List Byte)) (k v : List Byte) :
    List (List Byte × List Byte) :=
  match m with
  | [] => [(k, v)]
  | (k', v') :: rest =>
    if k' = k then (k', v) :: rest else (k', v') :: mapInsert rest k v

/-- One iteration of the `for byte in fix` loop of `split_fix_to_tags`. -/
def utils.splitStep (st : SplitState) (b : Byte) : SplitState :=
  if b = FIX_DELIMETR then
    { result := mapInsert st.result st.keyBuffer st.valueBuffer,
      keyBuffer := [], valueBuffer := [], isEqualsRaised := false }
  else if b = FIX_EQUALS then
    { st with isEqualsRaised := true }
  else if st.isEqualsRaised then
    { st with valueBuffer := st.valueBuffer ++ [b] }
  else
    { st with keyBuffer := st.keyBuffer ++ [b] }

/-- `pub fn split_fix_to_tags(fix: &[u8]) -> HashMap<Vec<u8>, Vec<u8>>`
(src/utils.rs lines 40-67), exactly as written there: each completed field is
`insert`ed into the map, so a later field with the same tag overwrites the
earlier value.  The scan returns `result`, discarding any unterminated
trailing field left in the buffers. -/
def utils.split_fix_to_tags (fix : List Byte) : List (List Byte × List Byte) :=
  (fix.foldl utils.splitStep ⟨[], [], [], false⟩).result

/-- The scan state of the multi-valued tag splitter used by `from_bytes`. -/
structure SplitStateM where
  result : List (List Byte × List (List Byte))
  keyBuffer : List Byte
  valueBuffer : List Byte
  isEqualsRaised : Bool

/-- Append `v` to the values recorded for `k`, adding the binding when `k` is
absent (keys stay in first-occurrence order). -/
def mapInsertMulti (m : List (List Byte × List (List Byte))) (k v : List Byte) :
    List (List Byte × List (List Byte)) :=
  match m with
  | [] => [(k, [v])]
  | (k', vs) :: rest =>
    if k' = k then (k', vs ++ [v]) :: rest else (k', vs) :: mapInsertMulti rest k v

/-- One iteration of the scan loop of the multi-valued splitter. -/
def utils.splitStepMulti (st : SplitStateM) (b : Byte) : SplitStateM :=
  if b = FIX_DELIMETR then
    { result := mapInsertMulti st.result st.keyBuffer st.valueBuffer,
      keyBuffer := [], valueBuffer := [], isEqualsRaised := false }
  else if b = FIX_EQUALS then
    { st with isEqualsRaised := true }
  else if st.isEqualsRaised then
    { st with valueBuffer := st.valueBuffer ++ [b] }
  else
    { st with keyBuffer := st.keyBuffer ++ [b] }

/-- Modelled from the spec: the tag splitter returning a mapping from tag to
its sequence of observed values, order preserved per tag (spec section 4.1).
`FixMessageBuilder::from_bytes` in src/src/fix_message_builder.rs requires
exactly this signature (it iterates `for value in values` and calls `.first()`
on each entry), but the `split_fix_to_tags` present in src/src/utils.rs
returns a single value per tag, so the multi-valued splitter the decoder
compiles against is missing from src/ and is reconstructed here from the
spec's words.  The scan is the same single pass as `utils.split_fix_to_tags`;
only the recording step differs: a completed field's value is appended to its
tag's value sequence instead of overwriting it. -/
def utils.split_fix_to_tags_multi (fix : List Byte) :
    List (List Byte × List (List Byte)) :=
  (fix.foldl utils.splitStepMulti ⟨[], [], [], false⟩).result

/-- `HashMap::get` on the association-list model. -/
def mapLookupMulti (m : List (List Byte × List (List Byte))) (k : List Byte) :
    Option (List (List Byte)) :=
  match m with
  | [] => none
  | (k', vs) :: rest => if k' = k then some vs else mapLookupMulti rest k

/-- `pub const FIX_VERSION: &[u8] = b"8";` -/
def FIX_VERSION : List Byte := strToBytes "8"

/-- `pub const FIX_BODY_LEN: &[u8] = b"9";` -/
def FIX_BODY_LEN : List Byte := strToBytes "9"

/-- `pub const FIX_CHECK_SUM: &[u8] = b"10";` -/
def FIX_CHECK_SUM : List Byte := strToBytes "10"

/-- `pub const FIX_MESSAGE_TYPE: &[u8] = b"35";` -/
def FIX_MESSAGE_TYPE : List Byte := strToBytes "35"

/-- `pub enum FixSerializeError` (src/errors.rs). -/
inductive FixSerializeError where
  | VersionTagNotFoundInSource
  | MessageTypeTagNotFoundInSource
  | CheckSumTagNotFoundInSource
  | InvalidCheckSum
deriving DecidableEq

/-- `pub struct FixMessageBuilder` (src/fix_message_builder.rs). -/
structure FixMessageBuilder where
  fix_version : List Byte
  message_type : List Byte
  data : List (List Byte × List Byte)
deriving DecidableEq

/-- `FixMessageBuilder::new(version: &str, message_type: &str)`. -/
def FixMessageBuilder.new (version message_type : String) : FixMessageBuilder :=
  { fix_version := strToBytes version,
    message_type := strToBytes message_type,
    data := [] }

/-- `FixMessageBuilder::with_value(&mut self, key: i32, value: &str)`: pushes
`(key.to_string().as_bytes(), value.as_bytes())` onto `data`. -/
def FixMessageBuilder.with_value (m : FixMessageBuilder) (key : Int)
    (value : String) : FixMessageBuilder :=
  { m with data := m.data ++ [(intDecBytes key, strToBytes value)] }

/-- `FixMessageBuilder::with_value_as_bytes(&mut self, key, value)`. -/
def FixMessageBuilder.with_value_as_bytes (m : FixMessageBuilder)
    (key value : List Byte) : FixMessageBuilder :=
  { m with data := m.data ++ [(key, value)] }

/-- `FixMessageBuilder::compile_body(&self) -> (usize, Vec<u8>)`: the
message-type chunk followed by one chunk per stored body field, in order,
paired with its byte length. -/
def FixMessageBuilder.compile_body (m : FixMessageBuilder) : Nat × List Byte :=
  let body := m.data.foldl
    (fun body kv => body ++ utils.compile_fix_chunk kv.1 kv.2)
    (utils.compile_fix_chunk FIX_MESSAGE_TYPE m.message_type)
  (body.length, body)

/-- `FixMessageBuilder::compile_message(&self) -> Vec<u8>`: version chunk,
body-length chunk, body, then the checksum chunk computed over everything
already emitted. -/
def FixMessageBuilder.compile_message (m : FixMessageBuilder) : List Byte :=
  let result := utils.compile_fix_chunk FIX_VERSION m.fix_version
    ++ utils.compile_fix_chunk FIX_BODY_LEN (natDecBytes m.compile_body.1)
    ++ m.compile_body.2
  result ++ utils.compile_fix_chunk FIX_CHECK_SUM (utils.calculate_check_sum result)

/-- `FixMessageBuilder::as_bytes(&self)`. -/
def FixMessageBuilder.as_bytes (m : FixMessageBuilder) : List Byte :=
  m.compile_message

/-- The private method `FixMessageBuilder::calculate_check_sum(&self)`:
recompiles version chunk + body-length chunk + body and feeds them to the
checksum utility (named `check_sum` here because inside the
`FixMessageBuilder` namespace the Rust name would capture itself). -/
def FixMessageBuilder.check_sum (m : FixMessageBuilder) : List Byte :=
  utils.calculate_check_sum
    (utils.compile_fix_chunk FIX_VERSION m.fix_version
      ++ utils.compile_fix_chunk FIX_BODY_LEN (natDecBytes m.compile_body.1)
      ++ m.compile_body.2)

/-- A UTF-8 continuation byte (`0x80 ..= 0xBF`). -/
def isUtf8Cont (c : Byte) : Bool := decide (0x80 ≤ c.val ∧ c.val ≤ 0xBF)

/-- Whether a byte sequence is valid UTF-8, as `String::from_utf8` checks it
(RFC 3629: no overlong forms, no surrogates, nothing above U+10FFFF). -/
def validUtf8 : List Byte → Bool
  | [] => true
  | b :: rest =>
    if b.val ≤ 0x7F then validUtf8 rest
    else if 0xC2 ≤ b.val ∧ b.val ≤ 0xDF then
      match rest with
      | c :: rest2 => isUtf8Cont c && validUtf8 rest2
      | [] => false
    else if 0xE0 ≤ b.val ∧ b.val ≤ 0xEF then
      match rest with
      | c :: d :: rest3 =>
        (if b.val = 0xE0 then decide (0xA0 ≤ c.val ∧ c.val ≤ 0xBF)
         else if b.val = 0xED then decide (0x80 ≤ c.val ∧ c.val ≤ 0x9F)
         else isUtf8Cont c) && isUtf8Cont d && validUtf8 rest3
      | _ => false
    else if 0xF0 ≤ b.val ∧ b.val ≤ 0xF4 then
      match rest with
      | c :: d :: e :: rest4 =>
        (if b.val = 0xF0 then decide (0x90 ≤ c.val ∧ c.val ≤ 0xBF)
         else if b.val = 0xF4 then decide (0x80 ≤ c.val ∧ c.val ≤ 0x8F)
         else isUtf8Cont c) && isUtf8Cont d && isUtf8Cont e && validUtf8 rest4
      | _ => false
    else false

/-- The observable outcome of `FixMessageBuilder::from_bytes`: an `Ok`
message, a typed `Err`, or a process abort (a `panic!` reached through
`unwrap()`), which the embedding keeps explicit. -/
inductive DecodeResult where
  | ok (m : FixMessageBuilder)
  | err (e : FixSerializeError)
  | panicked
deriving DecidableEq

/-- The copy loop of `from_bytes`: `for (tag, values) in &tags { for value in
values { if to_skip.contains(tag) { continue; } push (tag, value) } }` with
`to_skip = [FIX_BODY_LEN, FIX_VERSION, FIX_CHECK_SUM]` (note: the
message-type tag 35 is not skipped).  The `HashMap` iteration order is
modelled as the key first-occurrence order of the association list. -/
def copyTags (tags : List (List Byte × List (List Byte)))
    (init : FixMessageBuilder) : FixMessageBuilder :=
  tags.foldl
    (fun result kv =>
      kv.2.foldl
        (fun result value =>
          if kv.1 ∈ [FIX_BODY_LEN, FIX_VERSION, FIX_CHECK_SUM] then result
          else result.with_value_as_bytes kv.1 value)
        result)
    init

/-- `FixMessageBuilder::from_bytes(payload: &[u8], check_sum_validation: bool)`
(src/fix_message_builder.rs lines 20-73).  Faithful to the source order:
split, the three missing-tag checks (the missing-version branch first runs a
debug `println!` containing `String::from_utf8(payload).unwrap()`, which
panics on non-UTF-8 input), then construction via `first().unwrap()`, the
copy loop, and finally the checksum comparison when validation is on. -/
def FixMessageBuilder.from_bytes (payload : List Byte)
    (check_sum_validation : Bool) : DecodeResult :=
  let tags := utils.split_fix_to_tags_multi payload
  let version := mapLookupMulti tags FIX_VERSION
  let message_type := mapLookupMulti tags FIX_MESSAGE_TYPE
  let source_check_sum := mapLookupMulti tags FIX_CHECK_SUM
  if version = none then
    if validUtf8 payload then
      DecodeResult.err FixSerializeError.VersionTagNotFoundInSource
    else DecodeResult.panicked
  else if message_type = none then
    DecodeResult.err FixSerializeError.MessageTypeTagNotFoundInSource
  else if check_sum_validation = true ∧ source_check_sum = none then
    DecodeResult.err FixSerializeError.CheckSumTagNotFoundInSource
  else
    match version, message_type with
    | some (v :: _), some (t :: _) =>
      let result := copyTags tags
        { fix_version := v, message_type := t, data := [] }
      if check_sum_validation then
        match source_check_sum with
        | some (c :: _) =>
          if c ≠ result.check_sum then
            DecodeResult.err FixSerializeError.InvalidCheckSum
          else DecodeResult.ok result
        | _ => DecodeResult.panicked
      else DecodeResult.ok result
    | _, _ => DecodeResult.panicked

/-- An `Option` whose computation may also abort the process. -/
inductive POption (α : Type) where
  | some (a : α)
  | none
  | panicked
deriving DecidableEq

/-- A value whose computation may abort the process. -/
inductive PResult (α : Type) where
  | ok (a : α)
  | panicked
deriving DecidableEq

/-- `FixMessageBuilder::get_value(&self, key)`: first stored value for the
key. -/
def FixMessageBuilder.get_value (m : FixMessageBuilder) (key : List Byte) :
    Option (List Byte) :=
  match m.data.find? (fun kv => kv.1 = key) with
  | some kv => some kv.2
  | none => none

/-- `FixMessageBuilder::get_values(&self, key)`: all stored values for the
key, in order. -/
def FixMessageBuilder.get_values (m : FixMessageBuilder) (key : List Byte) :
    List (List Byte) :=
  (m.data.filter (fun kv => kv.1 = key)).map (fun kv => kv.2)

/-- `FixMessageBuilder::get_value_as_string(&self, key) -> Option<String>`:
the first stored value for the key, passed through
`String::from_utf8(...).unwrap()` — the `unwrap` aborts on non-UTF-8 bytes.
The returned Rust `String` is modelled by its byte content. -/
def FixMessageBuilder.get_value_as_string (m : FixMessageBuilder)
    (key : List Byte) : POption (List Byte) :=
  match m.data.find? (fun kv => kv.1 = key) with
  | some kv => if validUtf8 kv.2 then POption.some kv.2 else POption.panicked
  | none => POption.none

/-- `FixMessageBuilder::get_values_as_string(&self, key) -> Vec<String>`:
collects `String::from_utf8(value).unwrap()` for every stored value of the
key; the first non-UTF-8 value aborts the process. -/
def FixMessageBuilder.get_values_as_string (m : FixMessageBuilder)
    (key : List Byte) : PResult (List (List Byte)) :=
  let vs := (m.data.filter (fun kv => kv.1 = key)).map (fun kv => kv.2)
  if vs.all validUtf8 then PResult.ok vs else PResult.panicked

/-- `FixMessageBuilder::get_value_string(&self, key: &str)`:
like `get_value_as_string` with `key.as_bytes()`. -/
def FixMessageBuilder.get_value_string (m : FixMessageBuilder) (key : String) :
    POption (List Byte) :=
  m.get_value_as_string (strToBytes key)

/-- `FixMessageBuilder::get_values_string(&self, key: &str)`:
like `get_values_as_string` with `key.as_bytes()`. -/
def FixMessageBuilder.get_values_string (m : FixMessageBuilder) (key : String) :
    PResult (List (List Byte)) :=
  m.get_values_as_string (strToBytes key)

/-- `FixMessageBuilder::get_message_type(&self)`. -/
def FixMessageBuilder.get_message_type (m : FixMessageBuilder) : List Byte :=
  m.message_type

/-- One wire field rendered from its text form: the ASCII bytes followed by
the terminator byte `0x01`. -/
def fieldBytes (s : String) : List Byte := strToBytes s ++ [FIX_DELIMETR]

/-- The logon message of the spec's concrete scenario: version `FIX.4.4`,
message type `A`, six body fields added in order. -/
def testMessage : FixMessageBuilder :=
  ((((((FixMessageBuilder.new "FIX.4.4" "A").with_value 34 "1092").with_value
    49 "TESTBUY1").with_value 52 "20180920-18:24:59.643").with_value
    56 "TESTSELL1").with_value 98 "0").with_value 108 "60"

/-- C3: the message with version `FIX.4.4`, type `A` and the six body fields
34=1092, 49=TESTBUY1, 52=20180920-18:24:59.643, 56=TESTSELL1, 98=0, 108=60
added in that order encodes to exactly
`8=FIX.4.4|9=75|35=A|34=1092|49=TESTBUY1|52=20180920-18:24:59.643|56=TESTSELL1|98=0|108=60|10=178|`
where `|` is the terminator byte `0x01`. -/
theorem c3_concrete_encoding : testMessage.as_bytes =
    fieldBytes "8=FIX.4.4" ++ fieldBytes "9=75" ++ fieldBytes "35=A" ++
    fieldBytes "34=1092" ++ fieldBytes "49=TESTBUY1" ++
    fieldBytes "52=20180920-18:24:59.643" ++ fieldBytes "56=TESTSELL1" ++
    fieldBytes "98=0" ++ fieldBytes "108=60" ++ fieldBytes "10=178" := by
  decide

/-- C1 (code bug): the claimed round-trip fails already on the spec's own
concrete logon message: `from_bytes(as_bytes(m), true)` returns
`Err(InvalidCheckSum)` instead of succeeding.  `from_bytes` skips only tags
8, 9 and 10 when copying parsed fields into the body, so the message-type
value of tag 35 is stored again as a body field; re-encoding for checksum
validation then emits a second `35=A` chunk and a larger body length, and the
recomputed checksum can no longer match the checksum stored in the buffer. -/
theorem c1_roundtrip_code_bug :
    FixMessageBuilder.from_bytes testMessage.as_bytes true =
      DecodeResult.err FixSerializeError.InvalidCheckSum ∧
    (copyTags (utils.split_fix_to_tags_multi testMessage.as_bytes)
        { fix_version := strToBytes "FIX.4.4", message_type := strToBytes "A",
          data := [] }).get_values FIX_MESSAGE_TYPE = [strToBytes "A"] := by
  constructor
  · decide
  · decide

/-- C2 (code bug): `split_fix_to_tags` as written in src/src/utils.rs stores
each completed field with `HashMap::insert`, so on the buffer
`49=A|49=B|` the value `A` is overwritten and only `B` remains retrievable
for tag 49 — the claimed retention of all values per tag fails. -/
theorem c2_splitter_overwrites_code_bug :
    utils.split_fix_to_tags (fieldBytes "49=A" ++ fieldBytes "49=B") =
      [(strToBytes "49", strToBytes "B")] := by
  decide

/-- C9 (code bug): every text accessor reaches
`String::from_utf8(value.clone()).unwrap()`, so on a message holding the
non-UTF-8 value `0xFF` under tag 49 all four accessors abort the process
instead of returning the `InvalidEncoding` error the spec requires (no such
error variant even exists in src/errors.rs). -/
theorem c9_text_accessor_abort_code_bug :
    ({ fix_version := strToBytes "FIX.4.4", message_type := strToBytes "A",
       data := [(strToBytes "49", [0xFF])] } : FixMessageBuilder).get_value_as_string
        (strToBytes "49") = POption.panicked ∧
    ({ fix_version := strToBytes "FIX.4.4", message_type := strToBytes "A",
       data := [(strToBytes "49", [0xFF])] } : FixMessageBuilder).get_values_as_string
        (strToBytes "49") = PResult.panicked ∧
    ({ fix_version := strToBytes "FIX.4.4", message_type := strToBytes "A",
       data := [(strToBytes "49", [0xFF])] } : FixMessageBuilder).get_value_string
        "49" = POption.panicked ∧
    ({ fix_version := strToBytes "FIX.4.4", message_type := strToBytes "A",
       data := [(strToBytes "49", [0xFF])] } : FixMessageBuilder).get_values_string
        "49" = PResult.panicked := by
  refine ⟨by decide, by decide, by decide, by decide⟩

/-- C4 counterexample: the buffer consisting of the single byte `0xFF` has no
tag 8 among its split tags, yet decoding does not return the
`VersionTagMissing` error: the missing-version branch first formats the
payload with `String::from_utf8(...).unwrap()`, which panics because the
buffer is not valid UTF-8. -/
theorem c4_counterexample :
    mapLookupMulti (utils.split_fix_to_tags_multi [(0xFF : Byte)]) FIX_VERSION
      = none ∧
    FixMessageBuilder.from_bytes [(0xFF : Byte)] true = DecodeResult.panicked := by
  refine ⟨by decide, by decide⟩

/-- Scanning bytes that contain no terminator leaves the recorded result map
unchanged: only the terminator branch of the loop writes into it. -/
theorem splitStep_result_of_no_delim (s : List Byte) :
    ∀ st : SplitState, FIX_DELIMETR ∉ s →
      (s.foldl utils.splitStep st).result = st.result := by
  induction s with
  | nil => intro st _; rfl
  | cons b s ih =>
    intro st h
    have hb : ¬b = FIX_DELIMETR := fun hbe => h (hbe ▸ List.mem_cons_self b s)
    have hs : FIX_DELIMETR ∉ s := fun hm => h (List.mem_cons_of_mem b hm)
    rw [List.foldl_cons, ih _ hs]
    unfold utils.splitStep
    rw [if_neg hb]
    obtain ⟨res, kb, vb, flag⟩ := st
    by_cases he : b = FIX_EQUALS
    · rw [if_pos he]
    · rw [if_neg he]
      by_cases hf : flag = true
      · simp only [hf, if_true]
      · simp only [hf, if_false, Bool.false_eq_true]

/-- C8: bytes after the last terminator (or the whole buffer when no
terminator occurs) contribute no entry to the splitter's output: the
unterminated trailing field is dropped silently, and the splitter, being a
total function, never fails. -/
theorem c8_trailing_dropped (p s : List Byte) (h : FIX_DELIMETR ∉ s) :
    utils.split_fix_to_tags (p ++ s) = utils.split_fix_to_tags p := by
  unfold utils.split_fix_to_tags
  rw [List.foldl_append]
  exact splitStep_result_of_no_delim s _ h

/-- Witness for C8 at a concrete input: the unterminated trailing field
`49=B` is dropped, so `49=A|49=B` splits like `49=A|` alone. -/
theorem c8_trailing_dropped_witness :
    FIX_DELIMETR ∉ strToBytes "49=B" ∧
    utils.split_fix_to_tags (fieldBytes "49=A" ++ strToBytes "49=B") =
      utils.split_fix_to_tags (fieldBytes "49=A") :=
  ⟨by decide, c8_trailing_dropped (fieldBytes "49=A") (strToBytes "49=B") (by decide)⟩

/-- No key and no value stored in the map contains the separator byte. -/
def cleanMap (m : List (List Byte × List Byte)) : Prop :=
  ∀ kv ∈ m, FIX_EQUALS ∉ kv.1 ∧ FIX_EQUALS ∉ kv.2

/-- `mapInsert` keeps the map clean when the inserted pair is clean. -/
theorem mapInsert_clean (k v : List Byte) (hk : FIX_EQUALS ∉ k)
    (hv : FIX_EQUALS ∉ v) :
    ∀ m, cleanMap m → cleanMap (mapInsert m k v) := by
  intro m
  induction m with
  | nil =>
    intro _ kv hkv
    simp only [mapInsert, List.mem_singleton] at hkv
    subst hkv
    exact ⟨hk, hv⟩
  | cons hd rest ih =>
    intro hm kv hkv
    obtain ⟨a, b⟩ := hd
    simp only [mapInsert] at hkv
    by_cases hak : a = k
    · rw [if_pos hak] at hkv
      rcases List.mem_cons.mp hkv with hkv | hkv
      · subst hkv
        exact ⟨(hm (a, b) (List.mem_cons_self _ _)).1, hv⟩
      · exact hm kv (List.mem_cons_of_mem _ hkv)
    · rw [if_neg hak] at hkv
      rcases List.mem_cons.mp hkv with hkv | hkv
      · subst hkv
        exact hm (a, b) (List.mem_cons_self _ _)
      · exact ih (fun p hp => hm p (List.mem_cons_of_mem _ hp)) kv hkv

/-- The whole-state cleanliness invariant of the scan. -/
def cleanState (st : SplitState) : Prop :=
  cleanMap st.result ∧ FIX_EQUALS ∉ st.keyBuffer ∧ FIX_EQUALS ∉ st.valueBuffer

/-- One scan step preserves cleanliness: the separator byte itself is
consumed by the flag branch and never reaches a buffer. -/
theorem splitStep_clean (b : Byte) (st : SplitState) (h : cleanState st) :
    cleanState (utils.splitStep st b) := by
  obtain ⟨res, kb, vb, flag⟩ := st
  obtain ⟨hres, hkb, hvb⟩ := h
  unfold utils.splitStep
  by_cases hd : b = FIX_DELIMETR
  · rw [if_pos hd]
    exact ⟨mapInsert_clean _ _ hkb hvb res hres, by simp, by simp⟩
  · rw [if_neg hd]
    by_cases he : b = FIX_EQUALS
    · rw [if_pos he]
      exact ⟨hres, hkb, hvb⟩
    · rw [if_neg he]
      have hbmem : ∀ l : List Byte, FIX_EQUALS ∉ l → FIX_EQUALS ∉ l ++ [b] := by
        intro l hl hmem
        rcases List.mem_append.mp hmem with hmem | hmem
        · exact hl hmem
        · exact he (List.mem_singleton.mp hmem).symm
      by_cases hf : flag = true
      · simp only [hf, if_true]
        exact ⟨hres, hkb, hbmem vb hvb⟩
      · simp only [hf, if_false, Bool.false_eq_true]
        exact ⟨hres, hbmem kb hkb, hvb⟩

/-- The scan preserves cleanliness along any byte sequence. -/
theorem foldl_splitStep_clean (s : List Byte) :
    ∀ st : SplitState, cleanState st → cleanState (s.foldl utils.splitStep st) := by
  induction s with
  | nil => intro st h; exact h
  | cons b s ih =>
    intro st h
    rw [List.foldl_cons]
    exact ih _ (splitStep_clean b st h)

/-- Scanning key bytes (no terminator, no separator) while the flag is down
only extends the key buffer. -/
theorem foldl_splitStep_key (k : List Byte) (hd : FIX_DELIMETR ∉ k)
    (he : FIX_EQUALS ∉ k) :
    ∀ (res : List (List Byte × List Byte)) (kb vb : List Byte),
      k.foldl utils.splitStep ⟨res, kb, vb, false⟩ = ⟨res, kb ++ k, vb, false⟩ := by
  induction k with
  | nil => intro res kb vb; simp
  | cons b k ih =>
    intro res kb vb
    have hbd : ¬b = FIX_DELIMETR := fun hb => hd (hb ▸ List.mem_cons_self b k)
    have hbe : ¬b = FIX_EQUALS := fun hb => he (hb ▸ List.mem_cons_self b k)
    have hdk : FIX_DELIMETR ∉ k := fun hm => hd (List.mem_cons_of_mem b hm)
    have hek : FIX_EQUALS ∉ k := fun hm => he (List.mem_cons_of_mem b hm)
    rw [List.foldl_cons]
    have hstep : utils.splitStep ⟨res, kb, vb, false⟩ b =
        ⟨res, kb ++ [b], vb, false⟩ := by
      unfold utils.splitStep
      rw [if_neg hbd, if_neg hbe]
      simp
    rw [hstep, ih hdk hek]
    simp

/-- Scanning value bytes (no terminator) while the flag is up extends the
value buffer with those bytes minus every separator byte, which the flag
branch consumes and discards. -/
theorem foldl_splitStep_value (v : List Byte) (hd : FIX_DELIMETR ∉ v) :
    ∀ (res : List (List Byte × List Byte)) (kb vb : List Byte),
      v.foldl utils.splitStep ⟨res, kb, vb, true⟩ =
        ⟨res, kb, vb ++ v.filter (fun b => b ≠ FIX_EQUALS), true⟩ := by
  induction v with
  | nil => intro res kb vb; simp
  | cons b v ih =>
    intro res kb vb
    have hbd : ¬b = FIX_DELIMETR := fun hb => hd (hb ▸ List.mem_cons_self b v)
    have hdv : FIX_DELIMETR ∉ v := fun hm => hd (List.mem_cons_of_mem b hm)
    rw [List.foldl_cons]
    by_cases hbe : b = FIX_EQUALS
    · have hstep : utils.splitStep ⟨res, kb, vb, true⟩ b = ⟨res, kb, vb, true⟩ := by
        unfold utils.splitStep
        rw [if_neg hbd, if_pos hbe]
      rw [hstep, ih hdv]
      simp [List.filter_cons, hbe]
    · have hstep : utils.splitStep ⟨res, kb, vb, true⟩ b =
          ⟨res, kb, vb ++ [b], true⟩ := by
        unfold utils.splitStep
        rw [if_neg hbd, if_neg hbe]
        simp
      rw [hstep, ih hdv]
      simp [List.filter_cons, hbe]

/-- C10: (a) no key and no value in the splitter's output contains the `'='`
byte `0x3d`; (b) for a single field whose wire value contains `'='` bytes,
the first `'='` switches accumulation from key to value and every later `'='`
is consumed and discarded, so the recorded value is the wire value with its
`'='` bytes removed. -/
theorem c10_no_equals_in_output :
    (∀ fix : List Byte, ∀ kv ∈ utils.split_fix_to_tags fix,
      FIX_EQUALS ∉ kv.1 ∧ FIX_EQUALS ∉ kv.2) ∧
    (∀ k v : List Byte, FIX_DELIMETR ∉ k → FIX_EQUALS ∉ k → FIX_DELIMETR ∉ v →
      utils.split_fix_to_tags (k ++ [FIX_EQUALS] ++ v ++ [FIX_DELIMETR]) =
        [(k, v.filter (fun b => b ≠ FIX_EQUALS))]) := by
  constructor
  · intro fix kv hkv
    have h := foldl_splitStep_clean fix ⟨[], [], [], false⟩
      ⟨fun p hp => absurd hp (List.not_mem_nil p), fun hp => absurd hp (List.not_mem_nil _),
        fun hp => absurd hp (List.not_mem_nil _)⟩
    exact h.1 kv hkv
  · intro k v hdk hek hdv
    unfold utils.split_fix_to_tags
    rw [List.foldl_append, List.foldl_append, List.foldl_append]
    rw [foldl_splitStep_key k hdk hek [] [] []]
    simp only [List.nil_append]
    have heq : List.foldl utils.splitStep ⟨[], k, [], false⟩ [FIX_EQUALS] =
        ⟨[], k, [], true⟩ := by
      show utils.splitStep ⟨[], k, [], false⟩ FIX_EQUALS = _
      unfold utils.splitStep
      rw [if_neg (by decide), if_pos rfl]
    rw [heq, foldl_splitStep_value v hdv]
    simp only [List.nil_append]
    have hterm : List.foldl utils.splitStep
        ⟨[], k, v.filter (fun b => b ≠ FIX_EQUALS), true⟩ [FIX_DELIMETR] =
        ⟨mapInsert [] k (v.filter (fun b => b ≠ FIX_EQUALS)), [], [], false⟩ := by
      show utils.splitStep ⟨[], k, v.filter (fun b => b ≠ FIX_EQUALS), true⟩
        FIX_DELIMETR = _
      unfold utils.splitStep
      rw [if_pos rfl]
    rw [hterm]
    simp [mapInsert]

/-- Witness for C10 at a concrete input: splitting `49=A=B|` yields the single
entry `49 -> AB` (the second `'='` removed), and that entry contains no `'='`
byte. -/
theorem c10_no_equals_in_output_witness :
    utils.split_fix_to_tags
        (strToBytes "49" ++ [FIX_EQUALS] ++ strToBytes "A=B" ++ [FIX_DELIMETR]) =
      [(strToBytes "49", (strToBytes "A=B").filter (fun b => b ≠ FIX_EQUALS))] ∧
    (FIX_EQUALS ∉ strToBytes "49" ∧ FIX_EQUALS ∉ strToBytes "AB") :=
  ⟨c10_no_equals_in_output.2 (strToBytes "49") (strToBytes "A=B")
      (by decide) (by decide) (by decide),
   c10_no_equals_in_output.1
      (strToBytes "49" ++ [FIX_EQUALS] ++ strToBytes "A=B" ++ [FIX_DELIMETR])
      (strToBytes "49", strToBytes "AB") (by decide)⟩

/-- Whether a byte is an ASCII decimal digit. -/
def isDigitByte (b : Byte) : Bool := decide (0x30 ≤ b.val ∧ b.val ≤ 0x39)

/-- The number denoted by a string of ASCII decimal digits. -/
def decValue (s : List Byte) : Nat :=
  s.foldl (fun acc b => acc * 10 + (b.val - 0x30)) 0

/-- Folding the decimal digits of `n` onto an accumulator. -/
theorem natDecDigitsAux_foldl (fuel : Nat) :
    ∀ n a, n < fuel →
      (natDecDigitsAux fuel n).foldl (fun acc d => acc * 10 + d) a =
        a * 10 ^ (natDecDigitsAux fuel n).length + n := by
  induction fuel with
  | zero => intro n a h; omega
  | succ fuel ih =>
    intro n a h
    unfold natDecDigitsAux
    by_cases h10 : n < 10
    · rw [if_pos h10]
      simp [List.foldl]
    · rw [if_neg h10]
      rw [List.foldl_append]
      have hfuel : n / 10 < fuel := by omega
      rw [ih (n / 10) a hfuel]
      simp only [List.foldl_cons, List.foldl_nil, List.length_append,
        List.length_singleton]
      have hdm : n / 10 * 10 + n % 10 = n := by omega
      calc (a * 10 ^ (natDecDigitsAux fuel (n / 10)).length + n / 10) * 10 + n % 10
          = a * (10 ^ (natDecDigitsAux fuel (n / 10)).length * 10) +
              (n / 10 * 10 + n % 10) := by ring
        _ = a * 10 ^ ((natDecDigitsAux fuel (n / 10)).length + 1) + n := by
              rw [hdm, pow_succ]

/-- Every digit produced by `natDecDigitsAux` is below 10. -/
theorem natDecDigitsAux_lt_ten (fuel : Nat) :
    ∀ n d, n < fuel → d ∈ natDecDigitsAux fuel n → d < 10 := by
  induction fuel with
  | zero => intro n d h _; omega
  | succ fuel ih =>
    intro n d h hd
    unfold natDecDigitsAux at hd
    by_cases h10 : n < 10
    · rw [if_pos h10] at hd
      rw [List.mem_singleton] at hd
      omega
    · rw [if_neg h10] at hd
      rcases List.mem_append.mp hd with hd | hd
      · exact ih (n / 10) d (by omega) hd
      · rw [List.mem_singleton] at hd
        omega

/-- `natDecDigitsAux` never returns the empty digit list. -/
theorem natDecDigitsAux_length_pos (fuel n : Nat) (h : n < fuel) :
    1 ≤ (natDecDigitsAux fuel n).length := by
  cases fuel with
  | zero => omega
  | succ fuel =>
    unfold natDecDigitsAux
    by_cases h10 : n < 10
    · rw [if_pos h10]; simp
    · rw [if_neg h10]; simp

/-- A number below `10 ^ k` has at most `k` decimal digits. -/
theorem natDecDigitsAux_length_le (fuel : Nat) :
    ∀ k n, n < fuel → n < 10 ^ k → 1 ≤ k →
      (natDecDigitsAux fuel n).length ≤ k := by
  induction fuel with
  | zero => intro k n h _ _; omega
  | succ fuel ih =>
    intro k n h hk h1
    unfold natDecDigitsAux
    by_cases h10 : n < 10
    · rw [if_pos h10]
      simpa using h1
    · rw [if_neg h10]
      rw [List.length_append, List.length_singleton]
      have hk2 : 2 ≤ k := by
        by_contra hlt
        have hk1 : k = 1 := by omega
        rw [hk1, pow_one] at hk
        omega
      have hpow : (10 : Nat) ^ k = 10 ^ (k - 1) * 10 := by
        conv_lhs => rw [show k = (k - 1) + 1 by omega]
        rw [pow_succ]
      have hdiv : n / 10 < 10 ^ (k - 1) := by
        rw [hpow] at hk
        omega
      have := ih (k - 1) (n / 10) (by omega) hdiv (by omega)
      omega

/-- The decimal rendering round-trips: reading the ASCII digits of
`natDecBytes n` back as a number gives `n`, from any zero accumulator run
over leading pad bytes. -/
theorem decValue_natDecBytes (pad : Nat) (n : Nat) :
    decValue (List.replicate pad (digitByte 0) ++ natDecBytes n) = n := by
  unfold decValue natDecBytes
  rw [List.foldl_append]
  have hpad : ∀ m, List.foldl (fun acc b => acc * 10 + (b.val - 0x30)) 0
      (List.replicate m (digitByte 0)) = 0 := by
    intro m
    induction m with
    | zero => rfl
    | succ m ihm =>
      rw [List.replicate_succ, List.foldl_cons]
      simpa [digitByte] using ihm
  rw [hpad]
  have hmap : ∀ (l : List Nat) (a : Nat), (∀ d ∈ l, d < 10) →
      List.foldl (fun acc b => acc * 10 + (b.val - 0x30)) a (l.map digitByte) =
        List.foldl (fun acc d => acc * 10 + d) a l := by
    intro l
    induction l with
    | nil => intro a _; rfl
    | cons d l ihl =>
      intro a hl
      rw [List.map_cons, List.foldl_cons, List.foldl_cons]
      have hd : d < 10 := hl d (List.mem_cons_self d l)
      have hdb : (digitByte d).val = 0x30 + d := by
        unfold digitByte
        simp [Nat.mod_eq_of_lt (by omega : 0x30 + d < 256)]
      rw [hdb]
      have : 0x30 + d - 0x30 = d := by omega
      rw [this]
      exact ihl (a * 10 + d) (fun e he => hl e (List.mem_cons_of_mem d he))
  have hdl : ∀ d ∈ natDecDigits n, d < 10 := by
    intro d hd
    unfold natDecDigits at hd
    exact natDecDigitsAux_lt_ten (n + 1) n d (by omega) hd
  rw [hmap (natDecDigits n) 0 hdl]
  unfold natDecDigits
  have := natDecDigitsAux_foldl (n + 1) n 0 (by omega)
  simpa using this

/-- The checksum string has exactly three bytes. -/
theorem calculate_check_sum_length (body : List Byte) :
    (utils.calculate_check_sum body).length = 3 := by
  unfold utils.calculate_check_sum natDecBytes
  rw [List.length_append, List.length_replicate, List.length_map]
  have hval : (body.foldl (fun s b => s + b) (0 : Byte)).val < 1000 := by
    have := (body.foldl (fun s b => s + b) (0 : Byte)).isLt
    omega
  have hle := natDecDigitsAux_length_le
    ((body.foldl (fun s b => s + b) (0 : Byte)).val + 1) 3
    (body.foldl (fun s b => s + b) (0 : Byte)).val (by omega)
    (by simpa using hval) (by omega)
  have hpos := natDecDigitsAux_length_pos
    ((body.foldl (fun s b => s + b) (0 : Byte)).val + 1)
    (body.foldl (fun s b => s + b) (0 : Byte)).val (by omega)
  unfold natDecDigits
  omega

/-- Wrapping `u8` addition folded over a list computes the byte sum mod 256. -/
theorem foldl_byte_add_val (l : List Byte) :
    ∀ a : Byte, (l.foldl (fun s b => s + b) a).val =
      (a.val + (l.map Fin.val).sum) % 256 := by
  induction l with
  | nil =>
    intro a
    simp [Nat.mod_eq_of_lt a.isLt]
  | cons b l ih =>
    intro a
    rw [List.foldl_cons, ih]
    rw [List.map_cons, List.sum_cons]
    have : (a + b).val = (a.val + b.val) % 256 := Fin.val_add a b
    rw [this]
    omega

/-- The checksum chunk always occupies exactly 7 bytes: `10` + `=` + three
checksum digits + terminator. -/
theorem check_sum_chunk_length (pre : List Byte) :
    (utils.compile_fix_chunk FIX_CHECK_SUM
      (utils.calculate_check_sum pre)).length = 7 := by
  unfold utils.compile_fix_chunk
  rw [List.length_append, List.length_append, List.length_append,
    calculate_check_sum_length]
  decide

/-- Stripping the final checksum chunk from an encoded message recovers
exactly the bytes the checksum was computed over. -/
theorem take_drops_check_sum_chunk (pre : List Byte) :
    (pre ++ utils.compile_fix_chunk FIX_CHECK_SUM
        (utils.calculate_check_sum pre)).take
      ((pre ++ utils.compile_fix_chunk FIX_CHECK_SUM
        (utils.calculate_check_sum pre)).length - 7) = pre := by
  rw [List.length_append, check_sum_chunk_length]
  have h : pre.length + 7 - 7 = pre.length := by omega
  rw [h]
  exact List.take_left pre _

/-- C6: for every byte sequence the checksum is exactly 3 ASCII decimal
digits whose decimal value is the wrapping modulo-256 byte sum, with no
overflow for any input. -/
theorem c6_checksum_format (body : List Byte) :
    (utils.calculate_check_sum body).length = 3 ∧
    (utils.calculate_check_sum body).all isDigitByte = true ∧
    decValue (utils.calculate_check_sum body) = (body.map Fin.val).sum % 256 := by
  refine ⟨calculate_check_sum_length body, ?_, ?_⟩
  · rw [List.all_eq_true]
    intro b hb
    unfold utils.calculate_check_sum at hb
    rcases List.mem_append.mp hb with hb | hb
    · have := List.eq_of_mem_replicate hb
      subst this
      decide
    · unfold natDecBytes at hb
      rcases List.mem_map.mp hb with ⟨d, hd, hdb⟩
      have hd10 : d < 10 := by
        unfold natDecDigits at hd
        exact natDecDigitsAux_lt_ten _ _ d (by omega) hd
      subst hdb
      unfold isDigitByte digitByte
      simp [Nat.mod_eq_of_lt (by omega : 0x30 + d < 256)]
      omega
  · unfold utils.calculate_check_sum
    rw [decValue_natDecBytes]
    have := foldl_byte_add_val body 0
    simpa using this

/-- C7: for every message, the final 7 bytes of the encoding are the
checksum chunk, its checksum is computed over exactly the bytes emitted
before it — the version chunk, the body-length chunk and the body — and
nothing follows the checksum chunk. -/
theorem c7_checksum_coverage (m : FixMessageBuilder) :
    m.as_bytes.take (m.as_bytes.length - 7) =
      utils.compile_fix_chunk FIX_VERSION m.fix_version ++
      utils.compile_fix_chunk FIX_BODY_LEN (natDecBytes m.compile_body.1) ++
      m.compile_body.2 ∧
    m.as_bytes =
      m.as_bytes.take (m.as_bytes.length - 7) ++
        utils.compile_fix_chunk FIX_CHECK_SUM
          (utils.calculate_check_sum (m.as_bytes.take (m.as_bytes.length - 7))) := by
  have hab : m.as_bytes =
      (utils.compile_fix_chunk FIX_VERSION m.fix_version ++
       utils.compile_fix_chunk FIX_BODY_LEN (natDecBytes m.compile_body.1) ++
       m.compile_body.2) ++
      utils.compile_fix_chunk FIX_CHECK_SUM
        (utils.calculate_check_sum
          (utils.compile_fix_chunk FIX_VERSION m.fix_version ++
           utils.compile_fix_chunk FIX_BODY_LEN (natDecBytes m.compile_body.1) ++
           m.compile_body.2)) := rfl
  constructor
  · rw [hab, take_drops_check_sum_chunk]
  · conv_lhs => rw [hab]
    rw [hab, take_drops_check_sum_chunk]

/-- C4 as amended: lacking tag 8 decodes to the missing-version error
provided the buffer is valid UTF-8 (non-UTF-8 buffers abort instead, see the
counterexample); lacking tag 35 with tag 8 present decodes to the
missing-message-type error; and under checksum validation, lacking tag 10
with tags 8 and 35 present decodes to the missing-checksum error. -/
theorem c4_missing_tag_errors (payload : List Byte) (v : Bool) :
    (mapLookupMulti (utils.split_fix_to_tags_multi payload) FIX_VERSION = none →
      validUtf8 payload = true →
      FixMessageBuilder.from_bytes payload v =
        DecodeResult.err FixSerializeError.VersionTagNotFoundInSource) ∧
    (∀ vs, mapLookupMulti (utils.split_fix_to_tags_multi payload) FIX_VERSION = some vs →
      mapLookupMulti (utils.split_fix_to_tags_multi payload) FIX_MESSAGE_TYPE = none →
      FixMessageBuilder.from_bytes payload v =
        DecodeResult.err FixSerializeError.MessageTypeTagNotFoundInSource) ∧
    (∀ vs ts,
      mapLookupMulti (utils.split_fix_to_tags_multi payload) FIX_VERSION = some vs →
      mapLookupMulti (utils.split_fix_to_tags_multi payload) FIX_MESSAGE_TYPE = some ts →
      mapLookupMulti (utils.split_fix_to_tags_multi payload) FIX_CHECK_SUM = none →
      FixMessageBuilder.from_bytes payload true =
        DecodeResult.err FixSerializeError.CheckSumTagNotFoundInSource) := by
  refine ⟨?_, ?_, ?_⟩
  · intro h8 hu
    simp only [FixMessageBuilder.from_bytes]
    rw [h8, hu]
    simp
  · intro vs h8 h35
    simp only [FixMessageBuilder.from_bytes]
    rw [h8, h35]
    simp
  · intro vs ts h8 h35 h10
    simp only [FixMessageBuilder.from_bytes]
    rw [h8, h35, h10]
    simp

/-- Witness for C4 at concrete inputs: `9=75|` lacks tag 8 and is valid
UTF-8; `8=FIX.4.4|` has tag 8 but no tag 35; `8=FIX.4.4|35=A|` has tags 8
and 35 but no tag 10 under validation. -/
theorem c4_missing_tag_errors_witness :
    FixMessageBuilder.from_bytes (fieldBytes "9=75") true =
      DecodeResult.err FixSerializeError.VersionTagNotFoundInSource ∧
    FixMessageBuilder.from_bytes (fieldBytes "8=FIX.4.4") true =
      DecodeResult.err FixSerializeError.MessageTypeTagNotFoundInSource ∧
    FixMessageBuilder.from_bytes (fieldBytes "8=FIX.4.4" ++ fieldBytes "35=A") true =
      DecodeResult.err FixSerializeError.CheckSumTagNotFoundInSource :=
  ⟨(c4_missing_tag_errors (fieldBytes "9=75") true).1 (by decide) (by decide),
   (c4_missing_tag_errors (fieldBytes "8=FIX.4.4") true).2.1
     [strToBytes "FIX.4.4"] (by decide) (by decide),
   (c4_missing_tag_errors (fieldBytes "8=FIX.4.4" ++ fieldBytes "35=A") true).2.2
     [strToBytes "FIX.4.4"] [strToBytes "A"] (by decide) (by decide) (by decide)⟩

/-- C5: when the split tags contain 8, 35 and 10 but the stored tag-10 value
differs byte-for-byte from the checksum recomputed over the reconstructed
version, body-length and body chunks, decoding with validation fails with
`InvalidCheckSum` while decoding the same buffer without validation
succeeds. -/
theorem c5_checksum_enforcement (payload : List Byte)
    (v t c : List Byte) (vtl ttl ctl : List (List Byte))
    (h8 : mapLookupMulti (utils.split_fix_to_tags_multi payload) FIX_VERSION =
      some (v :: vtl))
    (h35 : mapLookupMulti (utils.split_fix_to_tags_multi payload) FIX_MESSAGE_TYPE =
      some (t :: ttl))
    (h10 : mapLookupMulti (utils.split_fix_to_tags_multi payload) FIX_CHECK_SUM =
      some (c :: ctl))
    (hne : c ≠ (copyTags (utils.split_fix_to_tags_multi payload)
      { fix_version := v, message_type := t, data := [] }).check_sum) :
    FixMessageBuilder.from_bytes payload true =
      DecodeResult.err FixSerializeError.InvalidCheckSum ∧
    FixMessageBuilder.from_bytes payload false =
      DecodeResult.ok (copyTags (utils.split_fix_to_tags_multi payload)
        { fix_version := v, message_type := t, data := [] }) := by
  constructor
  · simp only [FixMessageBuilder.from_bytes]
    rw [h8, h35, h10]
    simp [hne]
  · simp only [FixMessageBuilder.from_bytes]
    rw [h8, h35, h10]
    simp

/-- Witness for C5 at a concrete input: `8=FIX.4.4|35=A|10=999|` carries a
checksum that cannot match the recomputed one. -/
theorem c5_checksum_enforcement_witness :
    FixMessageBuilder.from_bytes
        (fieldBytes "8=FIX.4.4" ++ fieldBytes "35=A" ++ fieldBytes "10=999") true =
      DecodeResult.err FixSerializeError.InvalidCheckSum ∧
    FixMessageBuilder.from_bytes
        (fieldBytes "8=FIX.4.4" ++ fieldBytes "35=A" ++ fieldBytes "10=999") false =
      DecodeResult.ok (copyTags (utils.split_fix_to_tags_multi
          (fieldBytes "8=FIX.4.4" ++ fieldBytes "35=A" ++ fieldBytes "10=999"))
        { fix_version := strToBytes "FIX.4.4", message_type := strToBytes "A",
          data := [] }) :=
  c5_checksum_enforcement
    (fieldBytes "8=FIX.4.4" ++ fieldBytes "35=A" ++ fieldBytes "10=999")
    (strToBytes "FIX.4.4") (strToBytes "A") (strToBytes "999") [] [] []
    (by decide) (by decide) (by decide) (by decide)
